import Mathlib

/-!
Verification of the autorace scraping/conversion pipeline
(src/scrape_autorace_oddspark.py and src/convert_autorace_csv_to_json.py).

The Python sources are shallowly embedded: pure functions become Lean
functions, machine-level parsing (regular expressions, query strings) is
translated into executable character-list scanners, exceptions become
`Except`, and the HTML/HTTP libraries (BeautifulSoup, requests) are treated
as external collaborators whose outputs are the inputs of the embedded
functions.  Times are modelled as exact integers of minutes relative to
midnight of the reference date, which is how `datetime` arithmetic behaves
on this code path.
-/

namespace Autorace

/-- Test for an ASCII decimal digit, modelling the character class `\d` of the
regular expressions in `scrape_autorace_oddspark.py` (the pages use ASCII
digits). -/
def isDig (c : Char) : Bool := '0' ≤ c && c ≤ '9'

/-- Numeric value of an ASCII digit character. -/
def dv (c : Char) : Nat := c.toNat - 48

/-- Decimal digit character for a value below 10. -/
def digitChar (n : Nat) : Char :=
  match n with
  | 0 => '0' | 1 => '1' | 2 => '2' | 3 => '3' | 4 => '4'
  | 5 => '5' | 6 => '6' | 7 => '7' | 8 => '8' | 9 => '9'
  | _ => '*'

/-- Python's `f"{a:02d}:{b:02d}"` (equally `strftime("%H:%M")`) for values
below 100: two zero-padded decimal digits, a colon, two zero-padded decimal
digits.  Every call site in `hhmm_to_closed` passes an hour of at most 47 and
a minute of at most 59, so this covers the behaviour of the source exactly. -/
def renderHHMM (a b : Nat) : String :=
  String.mk [digitChar (a / 10), digitChar (a % 10), ':', digitChar (b / 10), digitChar (b % 10)]

/-- Model of `re.fullmatch(r"(\d{1,2}):(\d{2})", hhmm)` from `hhmm_to_closed`
(src/scrape_autorace_oddspark.py): one or two digits, a colon, exactly two
digits; yields the numeric hour and minute. -/
def parseHHMM (s : String) : Option (Nat × Nat) :=
  match s.data with
  | [a, c, b1, b2] =>
    if c == ':' && isDig a && isDig b1 && isDig b2 then
      some (dv a, 10 * dv b1 + dv b2)
    else none
  | [a1, a2, c, b1, b2] =>
    if c == ':' && isDig a1 && isDig a2 && isDig b1 && isDig b2 then
      some (10 * dv a1 + dv a2, 10 * dv b1 + dv b2)
    else none
  | _ => none

/-- Start instant of the race in minutes relative to midnight of the reference
date: the code computes `divmod(h, 24)` when `h >= 24` and builds
`base + timedelta(days=day_offset, hours=h_real, minutes=mi)`. -/
def startInstant (h mi : Nat) : Int :=
  (if 24 ≤ h then ((h / 24 : Nat) : Int) * 1440 + ((h % 24 : Nat) : Int) * 60
   else (h : Int) * 60) + (mi : Int)

/-- Minute-of-day (0..1439) of an instant, i.e. the wall clock that
`datetime` reports for it; `Int.fdiv` is Python's floor division, which is
what `datetime` arithmetic performs at day boundaries. -/
def wallOf (closed : Int) : Nat := (closed - 1440 * Int.fdiv closed 1440).toNat

/-- Model of `hhmm_to_closed(hhmm, date_str)` (src/scrape_autorace_oddspark.py):
subtract two minutes from the start instant; if the input hour was at least 24
and the result still lies on the day after the reference date, render it as
hours+24, otherwise render the plain wall clock.  `date_str` only anchors the
timeline, so instants are kept relative to midnight of the reference date and
the parameter is unused. -/
def hhmm_to_closed (hhmm : String) (date_str : String) : String :=
  match parseHHMM hhmm with
  | none => hhmm
  | some (h, mi) =>
    if 60 ≤ mi then hhmm
    else if 24 ≤ h then
      if Int.fdiv (startInstant h mi - 2) 1440 = 1 then
        renderHHMM (wallOf (startInstant h mi - 2) / 60 + 24) (wallOf (startInstant h mi - 2) % 60)
      else
        renderHHMM (wallOf (startInstant h mi - 2) / 60) (wallOf (startInstant h mi - 2) % 60)
    else
      renderHHMM (wallOf (startInstant h mi - 2) / 60) (wallOf (startInstant h mi - 2) % 60)

/-- Instant denoted by an "H:MM"/"HH:MM" string under the hours-beyond-23
convention of the specification (hour `h` means calendar day `h / 24` after
the reference date at wall-clock hour `h % 24`), in minutes relative to
midnight of the reference date; that is `h * 60 + m`. -/
def instantOf (s : String) : Option Int :=
  (parseHHMM s).map fun p => ((p.1 : Int) * 60 + (p.2 : Int))

theorem startInstant_eq (h mi : Nat) : startInstant h mi = 60 * (h : Int) + (mi : Int) := by
  unfold startInstant
  split <;> omega

theorem wallOf_int (z : Int) : (wallOf z : Int) = z % 1440 := by
  unfold wallOf
  rw [Int.fdiv_eq_ediv _ (by norm_num)]
  omega

theorem wallOf_lt (z : Int) : wallOf z < 1440 := by
  have h := wallOf_int z
  omega

theorem fdiv_1440_eq_ediv (z : Int) : Int.fdiv z 1440 = z / 1440 :=
  Int.fdiv_eq_ediv _ (by norm_num)

theorem isDig_digitChar {d : Nat} (hd : d ≤ 9) : isDig (digitChar d) = true := by
  interval_cases d <;> rfl

theorem dv_digitChar {d : Nat} (hd : d ≤ 9) : dv (digitChar d) = d := by
  interval_cases d <;> rfl

theorem parseHHMM_renderHHMM {a b : Nat} (ha : a ≤ 99) (hb : b ≤ 99) :
    parseHHMM (renderHHMM a b) = some (a, b) := by
  have h1 : a / 10 ≤ 9 := by omega
  have h2 : a % 10 ≤ 9 := by omega
  have h3 : b / 10 ≤ 9 := by omega
  have h4 : b % 10 ≤ 9 := by omega
  show parseHHMM (String.mk _) = _
  simp only [parseHHMM, isDig_digitChar h1, isDig_digitChar h2, isDig_digitChar h3,
    isDig_digitChar h4, dv_digitChar h1, dv_digitChar h2, dv_digitChar h3, dv_digitChar h4]
  norm_num
  omega

theorem instantOf_renderHHMM {a b : Nat} (ha : a ≤ 99) (hb : b ≤ 99) :
    instantOf (renderHHMM a b) = some ((a : Int) * 60 + (b : Int)) := by
  unfold instantOf
  rw [parseHHMM_renderHHMM ha hb]
  rfl

/-- Characterization of `hhmm_to_closed` on a parsed input with a valid
minute, fully in terms of the closing instant `60*h + mi - 2`. -/
theorem hhmm_to_closed_spec (s d : String) (h mi : Nat)
    (hp : parseHHMM s = some (h, mi)) (hmi : mi < 60) :
    hhmm_to_closed s d =
      (if 24 ≤ h then
        if (60 * (h : Int) + mi - 2) / 1440 = 1 then
          renderHHMM (wallOf (60 * (h : Int) + mi - 2) / 60 + 24)
            (wallOf (60 * (h : Int) + mi - 2) % 60)
        else
          renderHHMM (wallOf (60 * (h : Int) + mi - 2) / 60)
            (wallOf (60 * (h : Int) + mi - 2) % 60)
      else
        renderHHMM (wallOf (60 * (h : Int) + mi - 2) / 60)
          (wallOf (60 * (h : Int) + mi - 2) % 60)) := by
  unfold hhmm_to_closed
  rw [hp]
  dsimp only
  rw [if_neg (by omega : ¬ 60 ≤ mi)]
  rw [startInstant_eq, fdiv_1440_eq_ediv]

/-- C1 (amended).  For every "H:MM"/"HH:MM" input with minute below 60, hour
at most 47 and instant at least two minutes past reference midnight, the
output of `hhmm_to_closed` denotes exactly the instant two minutes before the
input's instant; and `hhmm_to_closed "18:48" d = "18:46"`. -/
theorem closing_time_two_minutes_before :
    (∀ (s d : String) (h mi : Nat), parseHHMM s = some (h, mi) → mi < 60 → h ≤ 47 →
      2 ≤ 60 * h + mi →
      instantOf (hhmm_to_closed s d) = some (60 * (h : Int) + mi - 2)) ∧
    (∀ d : String, hhmm_to_closed "18:48" d = "18:46") := by
  constructor
  · intro s d h mi hp hmi hh hlow
    rw [hhmm_to_closed_spec s d h mi hp hmi]
    have hwint := wallOf_int (60 * (h : Int) + mi - 2)
    have hwlt := wallOf_lt (60 * (h : Int) + mi - 2)
    by_cases h24 : 24 ≤ h
    · rw [if_pos h24]
      by_cases hd : (60 * (h : Int) + mi - 2) / 1440 = 1
      · rw [if_pos hd]
        rw [instantOf_renderHHMM (by omega) (by omega)]
        congr 1
        push_cast
        omega
      · rw [if_neg hd]
        rw [instantOf_renderHHMM (by omega) (by omega)]
        congr 1
        push_cast
        omega
    · rw [if_neg h24]
      rw [instantOf_renderHHMM (by omega) (by omega)]
      congr 1
      push_cast
      omega
  · intro d
    rfl

theorem closing_time_two_minutes_before_witness :
    instantOf (hhmm_to_closed "25:30" "20250101") = some (60 * ((25 : Nat) : Int) + (30 : Nat) - 2) ∧
    hhmm_to_closed "18:48" "20250101" = "18:46" :=
  ⟨closing_time_two_minutes_before.1 "25:30" "20250101" 25 30 rfl (by omega) (by omega) (by omega),
   closing_time_two_minutes_before.2 "20250101"⟩

/-- C1, as frozen, is false: at input "00:00" the subtraction crosses below
reference midnight and the plain rendering "23:58" denotes 1438 minutes, not
-2; and at input "48:10" (two days ahead) the plain rendering "00:08" denotes
8 minutes, not 2888. -/
theorem closing_time_two_minutes_before_counterexample :
    hhmm_to_closed "00:00" "20250101" = "23:58" ∧
    instantOf "00:00" = some 0 ∧
    instantOf "23:58" = some 1438 ∧
    ((1438 : Int) ≠ 0 - 2) ∧
    hhmm_to_closed "48:10" "20250101" = "00:08" ∧
    instantOf "48:10" = some 2890 ∧
    instantOf "00:08" = some 8 ∧
    ((8 : Int) ≠ 2890 - 2) := by
  refine ⟨rfl, rfl, rfl, by norm_num, rfl, rfl, rfl, by norm_num⟩

/-- C2.  Formatting rule of `hhmm_to_closed`: for original hour at least 24,
if the closing instant still lies on the day after the reference date the
result is the wall clock rendered with 24 added to the hour; if it fell back
onto the reference day it is the plain wall clock (hour below 24); for
original hour below 24 the result is always the plain wall clock.  In
particular "24:01" closes at "23:59" and "24:05" closes at "24:03". -/
theorem closing_time_formatting_rule :
    (∀ (s d : String) (h mi : Nat), parseHHMM s = some (h, mi) → mi < 60 → 24 ≤ h →
      ((60 * (h : Int) + mi - 2) / 1440 = 1 →
        hhmm_to_closed s d =
          renderHHMM (wallOf (60 * (h : Int) + mi - 2) / 60 + 24)
            (wallOf (60 * (h : Int) + mi - 2) % 60)) ∧
      ((60 * (h : Int) + mi - 2) / 1440 = 0 →
        hhmm_to_closed s d =
          renderHHMM (wallOf (60 * (h : Int) + mi - 2) / 60)
            (wallOf (60 * (h : Int) + mi - 2) % 60) ∧
        wallOf (60 * (h : Int) + mi - 2) / 60 < 24)) ∧
    (∀ (s d : String) (h mi : Nat), parseHHMM s = some (h, mi) → mi < 60 → h < 24 →
      hhmm_to_closed s d =
        renderHHMM (wallOf (60 * (h : Int) + mi - 2) / 60)
          (wallOf (60 * (h : Int) + mi - 2) % 60) ∧
      wallOf (60 * (h : Int) + mi - 2) / 60 < 24) ∧
    (∀ d : String, hhmm_to_closed "24:01" d = "23:59") ∧
    (∀ d : String, hhmm_to_closed "24:05" d = "24:03") := by
  refine ⟨?_, ?_, fun d => rfl, fun d => rfl⟩
  · intro s d h mi hp hmi h24
    have hwlt := wallOf_lt (60 * (h : Int) + mi - 2)
    rw [hhmm_to_closed_spec s d h mi hp hmi, if_pos h24]
    constructor
    · intro hd
      rw [if_pos hd]
    · intro hd
      rw [if_neg (by omega : ¬ (60 * (h : Int) + mi - 2) / 1440 = 1)]
      exact ⟨rfl, by omega⟩
  · intro s d h mi hp hmi h24
    have hwlt := wallOf_lt (60 * (h : Int) + mi - 2)
    rw [hhmm_to_closed_spec s d h mi hp hmi, if_neg (by omega : ¬ 24 ≤ h)]
    exact ⟨rfl, by omega⟩

theorem closing_time_formatting_rule_witness :
    hhmm_to_closed "24:05" "20250101" =
      renderHHMM (wallOf (60 * ((24 : Nat) : Int) + (5 : Nat) - 2) / 60 + 24)
        (wallOf (60 * ((24 : Nat) : Int) + (5 : Nat) - 2) % 60) :=
  ((closing_time_formatting_rule.1 "24:05" "20250101" 24 5 rfl (by omega) (by omega)).1
    (by norm_num))

/-- C9.  When the input does not match the "H:MM"/"HH:MM" shape, or its minute
field is 60 or more, `hhmm_to_closed` returns the input unchanged (it is a
total function, so it never fails). -/
theorem closing_time_fallback (s d : String)
    (hbad : ∀ h mi : Nat, parseHHMM s = some (h, mi) → 60 ≤ mi) :
    hhmm_to_closed s d = s := by
  unfold hhmm_to_closed
  cases hp : parseHHMM s with
  | none => rfl
  | some p =>
    obtain ⟨h, mi⟩ := p
    dsimp only
    rw [if_pos (hbad h mi hp)]

theorem closing_time_fallback_witness :
    hhmm_to_closed "12:99" "20250101" = "12:99" ∧ hhmm_to_closed "1848" "20250101" = "1848" := by
  constructor
  · refine closing_time_fallback "12:99" "20250101" ?_
    intro h mi hp
    have h0 : parseHHMM "12:99" = some (12, 99) := rfl
    rw [h0] at hp
    have h1 := Option.some.inj hp
    have h2 : (99 : Nat) = mi := congrArg Prod.snd h1
    omega
  · refine closing_time_fallback "1848" "20250101" ?_
    intro h mi hp
    have h0 : parseHHMM "1848" = none := rfl
    rw [h0] at hp
    exact absurd hp (by simp)

/-! ### Converter stage: src/convert_autorace_csv_to_json.py -/

/-- Whitespace as removed by Python's `int()` and matched by the regex class
`\s` on these pages: ASCII whitespace and the ideographic space U+3000. -/
def isPySpace (c : Char) : Bool :=
  c == ' ' || c == '\t' || c == '\n' || c == '\r' || c == '\x0b' || c == '\x0c' || c == '　'

/-- Value of a list of decimal digits. -/
def digitsToNat (ds : List Char) : Nat := ds.foldl (fun a c => 10 * a + dv c) 0

/-- Strip leading and trailing whitespace. -/
def pyStrip (cs : List Char) : List Char :=
  ((cs.dropWhile isPySpace).reverse.dropWhile isPySpace).reverse

/-- Python's `int(s)` on decimal literals: optional surrounding whitespace, an
optional sign, then one or more ASCII digits; `none` models the `ValueError`
raised on anything else. -/
def pyInt (s : String) : Option Int :=
  match pyStrip s.data with
  | [] => none
  | '+' :: ds => if !ds.isEmpty && ds.all isDig then some ((digitsToNat ds : Nat) : Int) else none
  | '-' :: ds => if !ds.isEmpty && ds.all isDig then some (-((digitsToNat ds : Nat) : Int)) else none
  | c :: ds => if isDig c && ds.all isDig then some ((digitsToNat (c :: ds) : Nat) : Int) else none

/-- One record of the intermediate CSV, in the writer's column order.
`players` is an `Option` because `csv.DictReader` yields `None` for a missing
trailing field, which the code guards with `row["players"] or ""`. -/
structure CsvRow where
  date : String
  venue : String
  grade : String
  race_number : String
  start_time : String
  closed_at : String
  players : Option String
  class_category : String
deriving DecidableEq

/-- One entry of a group's `races` array in the output JSON document. -/
structure RacesItem where
  race_number : Int
  start_time : String
  closed_at : String
  players : List String
  class_category : String
deriving DecidableEq

/-- One element of the output JSON array. -/
structure VenueGroup where
  venue : String
  grade : String
  races : List RacesItem
deriving DecidableEq

/-- Python's `s.split(sep)` for a single-character separator. -/
def splitOnCharAux (sep : Char) : List Char → List Char → List String
  | cur, [] => [String.mk cur.reverse]
  | cur, c :: rest =>
    if c = sep then String.mk cur.reverse :: splitOnCharAux sep [] rest
    else splitOnCharAux sep (c :: cur) rest

def splitOnChar (sep : Char) (s : String) : List String := splitOnCharAux sep [] s.data

/-- Splitting of the comma-joined players field with empty segments removed:
`[p for p in (row["players"] or "").split(",") if p]`. -/
def splitPlayers (s : String) : List String := (splitOnChar ',' s).filter (fun p => p ≠ "")

/-- One iteration of the reading loop of the converter's `main`: `.ok none`
when the 6..8 players validation drops the row, `.error` when
`int(row["race_number"])` raises `ValueError` (the validation runs first, as
in the source). -/
def rowStep (row : CsvRow) : Except String (Option ((String × String) × RacesItem)) :=
  if ¬(6 ≤ (splitPlayers (row.players.getD "")).length ∧
      (splitPlayers (row.players.getD "")).length ≤ 8) then .ok none
  else
    match pyInt row.race_number with
    | none => .error "ValueError: invalid literal for int()"
    | some n => .ok (some ((row.venue, row.grade),
        ⟨n, row.start_time, row.closed_at, splitPlayers (row.players.getD ""), row.class_category⟩))

/-- Append `it` to `groups[k]` with the insertion-order semantics of
`defaultdict(list)`: a key keeps the position of its first insertion. -/
def pushGroup (acc : List ((String × String) × List RacesItem)) (k : String × String)
    (it : RacesItem) : List ((String × String) × List RacesItem) :=
  match acc with
  | [] => [(k, [it])]
  | (k', its) :: rest =>
    if k' = k then (k', its ++ [it]) :: rest else (k', its) :: pushGroup rest k it

/-- The converter's reading loop: fold the rows into the ordered group list. -/
def buildGroups (rows : List CsvRow)
    (acc : List ((String × String) × List RacesItem)) :
    Except String (List ((String × String) × List RacesItem)) :=
  match rows with
  | [] => .ok acc
  | r :: rs =>
    match rowStep r with
    | .error e => .error e
    | .ok none => buildGroups rs acc
    | .ok (some (k, it)) => buildGroups rs (pushGroup acc k it)

/-- Sort order of `items.sort(key=lambda x: x["race_number"])`. -/
def raceLe (a b : RacesItem) : Prop := a.race_number ≤ b.race_number

instance : DecidableRel raceLe := fun a b => Int.decLe a.race_number b.race_number

instance : IsTotal RacesItem raceLe := ⟨fun a b => le_total a.race_number b.race_number⟩

instance : IsTrans RacesItem raceLe := ⟨fun _ _ _ hab hbc => le_trans hab hbc⟩

/-- Grouping core of the converter's `main`: read all rows into `groups`,
then emit one `{venue, grade, races}` object per key with races sorted by
race number.  Python's `list.sort` is a stable sort, and a stable sort is
extensionally determined by the comparison, so the stable `insertionSort`
models it exactly. -/
def convert_rows (rows : List CsvRow) : Except String (List VenueGroup) :=
  (buildGroups rows []).map
    (List.map fun g => ⟨g.1.1, g.1.2, List.insertionSort raceLe g.2⟩)

/-- Tagged items of the retained rows, in input order. -/
def retainedPairs (rows : List CsvRow) : List ((String × String) × RacesItem) :=
  rows.filterMap fun r =>
    match rowStep r with
    | .ok (some p) => some p
    | _ => none

/-- Append a key if it has not been seen yet. -/
def pushKey (ks : List (String × String)) (k : String × String) : List (String × String) :=
  if k ∈ ks then ks else ks ++ [k]

/-- First-occurrence deduplication of a key sequence. -/
def firstOccurrences (l : List (String × String)) : List (String × String) :=
  l.foldl pushKey []

/-- All (key, item) pairs held by a group list. -/
def flatGroups (gs : List ((String × String) × List RacesItem)) :
    List ((String × String) × RacesItem) :=
  gs.flatMap fun g => g.2.map fun it => (g.1, it)

theorem pushGroup_keys (acc : List ((String × String) × List RacesItem))
    (k : String × String) (it : RacesItem) :
    (pushGroup acc k it).map Prod.fst = pushKey (acc.map Prod.fst) k := by
  induction acc with
  | nil => simp [pushGroup, pushKey]
  | cons hd rest ih =>
    obtain ⟨k', its⟩ := hd
    by_cases hk : k' = k
    · subst hk
      simp [pushGroup, pushKey]
    · simp only [pushGroup, if_neg hk, List.map_cons, ih, pushKey, List.mem_cons]
      have : ¬ k = k' := fun h => hk h.symm
      by_cases hmem : k ∈ rest.map Prod.fst
      · simp [this, hmem]
      · simp [this, hmem]

theorem flatGroups_cons (p : (String × String) × List RacesItem)
    (rest : List ((String × String) × List RacesItem)) :
    flatGroups (p :: rest) = (p.2.map fun it => (p.1, it)) ++ flatGroups rest := by
  simp [flatGroups]

theorem flatGroups_pushGroup (acc : List ((String × String) × List RacesItem))
    (k : String × String) (it : RacesItem) :
    (flatGroups (pushGroup acc k it)).Perm (flatGroups acc ++ [(k, it)]) := by
  induction acc with
  | nil => simp [pushGroup, flatGroups]
  | cons hd rest ih =>
    obtain ⟨k', its⟩ := hd
    have he : pushGroup ((k', its) :: rest) k it =
        if k' = k then (k', its ++ [it]) :: rest else (k', its) :: pushGroup rest k it := rfl
    by_cases hk : k' = k
    · subst hk
      rw [he, if_pos rfl]
      rw [flatGroups_cons, flatGroups_cons]
      simp only [List.map_append, List.map_cons, List.map_nil]
      rw [List.append_assoc, List.append_assoc]
      exact List.Perm.append_left _ List.perm_append_comm
    · rw [he, if_neg hk]
      rw [flatGroups_cons, flatGroups_cons]
      rw [List.append_assoc]
      exact List.Perm.append_left _ ih

theorem buildGroups_spec (rows : List CsvRow) :
    ∀ acc gs, buildGroups rows acc = .ok gs →
      gs.map Prod.fst =
        ((retainedPairs rows).map Prod.fst).foldl pushKey (acc.map Prod.fst) ∧
      (flatGroups gs).Perm (flatGroups acc ++ retainedPairs rows) := by
  induction rows with
  | nil =>
    intro acc gs h
    obtain rfl : acc = gs := by
      simpa [buildGroups] using h
    simp [retainedPairs]
  | cons r rs ih =>
    intro acc gs h
    unfold buildGroups at h
    cases hs : rowStep r with
    | error e => rw [hs] at h; exact absurd h (by simp)
    | ok o =>
      rw [hs] at h
      cases o with
      | none =>
        have hret : retainedPairs (r :: rs) = retainedPairs rs := by
          simp [retainedPairs, List.filterMap_cons, hs]
        rw [hret]
        exact ih acc gs h
      | some p =>
        obtain ⟨k, it⟩ := p
        have hret : retainedPairs (r :: rs) = (k, it) :: retainedPairs rs := by
          simp [retainedPairs, List.filterMap_cons, hs]
        rw [hret]
        obtain ⟨h1, h2⟩ := ih (pushGroup acc k it) gs h
        constructor
        · rw [h1, pushGroup_keys]
          simp
        · refine h2.trans ?_
          refine List.Perm.trans (List.Perm.append_right _ (flatGroups_pushGroup acc k it)) ?_
          rw [List.append_assoc]
          exact List.Perm.append_left _ (by simp)

/-- Inversion of a retaining `rowStep`. -/
theorem rowStep_some_inv (r : CsvRow) (k : String × String) (it : RacesItem)
    (h : rowStep r = .ok (some (k, it))) :
    k = (r.venue, r.grade) ∧
    it.players = splitPlayers (r.players.getD "") ∧
    6 ≤ it.players.length ∧ it.players.length ≤ 8 ∧
    pyInt r.race_number = some it.race_number ∧
    it.start_time = r.start_time ∧ it.closed_at = r.closed_at ∧
    it.class_category = r.class_category := by
  unfold rowStep at h
  by_cases hlen : 6 ≤ (splitPlayers (r.players.getD "")).length ∧
      (splitPlayers (r.players.getD "")).length ≤ 8
  · rw [if_neg (by exact fun hc => hc hlen)] at h
    cases hn : pyInt r.race_number with
    | none => rw [hn] at h; exact absurd h (by simp)
    | some n =>
      rw [hn] at h
      have := Except.ok.inj h
      have hp := Option.some.inj this
      have hk : k = (r.venue, r.grade) := (congrArg Prod.fst hp).symm
      have hit : it = ⟨n, r.start_time, r.closed_at,
          splitPlayers (r.players.getD ""), r.class_category⟩ :=
        (congrArg Prod.snd hp).symm
      subst hit
      exact ⟨hk, rfl, hlen.1, hlen.2, rfl, rfl, rfl, rfl⟩
  · rw [if_pos hlen] at h
    exact absurd h (by simp)

theorem retainStep_eq (x : Except String (Option ((String × String) × RacesItem)))
    (p : (String × String) × RacesItem)
    (hx : (match x with | .ok (some q) => some q | _ => none) = some p) :
    x = .ok (some p) := by
  cases x with
  | error e => exact absurd hx (by simp)
  | ok o =>
    cases o with
    | none => exact absurd hx (by simp)
    | some q =>
      dsimp only at hx
      rw [Option.some.inj hx]

theorem retainedPairs_mem (rows : List CsvRow) (p : (String × String) × RacesItem)
    (hp : p ∈ retainedPairs rows) :
    ∃ r ∈ rows, rowStep r = .ok (some p) := by
  unfold retainedPairs at hp
  rw [List.mem_filterMap] at hp
  obtain ⟨r, hr, hstep⟩ := hp
  exact ⟨r, hr, retainStep_eq (rowStep r) p hstep⟩

/-- C7.  On success, the converter's output has one group per distinct
(venue, grade) key of the retained rows, in first-occurrence order, and
every group's races are sorted by race number ascending. -/
theorem converter_grouping (rows : List CsvRow) (out : List VenueGroup)
    (h : convert_rows rows = .ok out) :
    out.map (fun g => (g.venue, g.grade)) =
      firstOccurrences ((retainedPairs rows).map Prod.fst) ∧
    ∀ g ∈ out, List.Pairwise (fun a b : RacesItem => a.race_number ≤ b.race_number) g.races := by
  unfold convert_rows at h
  cases hb : buildGroups rows [] with
  | error e => rw [hb] at h; exact absurd h (by simp [Except.map])
  | ok gs =>
    rw [hb] at h
    simp only [Except.map, Except.ok.injEq] at h
    subst h
    obtain ⟨hkeys, _⟩ := buildGroups_spec rows [] gs hb
    constructor
    · rw [List.map_map]
      have hcomp : ((fun g : VenueGroup => (g.venue, g.grade)) ∘
          (fun g : (String × String) × List RacesItem =>
            (⟨g.1.1, g.1.2, List.insertionSort raceLe g.2⟩ : VenueGroup))) = Prod.fst := by
        funext g
        simp
      rw [hcomp, hkeys]
      simp [firstOccurrences, flatGroups]
    · intro g hg
      rw [List.mem_map] at hg
      obtain ⟨p, _, rfl⟩ := hg
      exact (List.sorted_insertionSort raceLe p.2).imp (fun h => h)

/-- Demonstration rows for the converter claims. -/
def demoRowA : CsvRow :=
  ⟨"20250101", "川口", "", "2", "15:30", "15:28", some "1a,2b,3c,4d,5e,6f", "予選"⟩

def demoRowB : CsvRow :=
  ⟨"20250101", "川口", "", "1", "15:00", "14:58", some "1g,2h,3i,4j,5k,6l", "一般"⟩

theorem converter_grouping_witness :
    ∃ out, convert_rows [demoRowA, demoRowB] = .ok out ∧
      out.map (fun g => (g.venue, g.grade)) =
        firstOccurrences ((retainedPairs [demoRowA, demoRowB]).map Prod.fst) := by
  refine ⟨_, rfl, (converter_grouping [demoRowA, demoRowB] _ rfl).1⟩

/-- Flat content of one output row, as recovered by flattening the grouped
document: the venue/grade of the enclosing group and the race fields.  The
`date` column of the CSV does not occur in the document. -/
structure FlatRow where
  venue : String
  grade : String
  race_number : Int
  start_time : String
  closed_at : String
  players : List String
  class_category : String
deriving DecidableEq

/-- Flatten the grouped document back into rows. -/
def flattenDoc (out : List VenueGroup) : List FlatRow :=
  out.flatMap fun g => g.races.map fun it =>
    ⟨g.venue, g.grade, it.race_number, it.start_time, it.closed_at, it.players,
      it.class_category⟩

/-- Content projection of a CSV row: every field that the grouped document
can represent (all fields except `date`, with `race_number` read numerically). -/
def contentOf (r : CsvRow) : Option FlatRow :=
  (pyInt r.race_number).map fun n =>
    ⟨r.venue, r.grade, n, r.start_time, r.closed_at, splitPlayers (r.players.getD ""),
      r.class_category⟩

def pairToFlat (p : (String × String) × RacesItem) : FlatRow :=
  ⟨p.1.1, p.1.2, p.2.race_number, p.2.start_time, p.2.closed_at, p.2.players,
    p.2.class_category⟩

theorem flatMap_perm_congr {α β : Type} (l : List α) (f g : α → List β)
    (h : ∀ a ∈ l, (f a).Perm (g a)) : (l.flatMap f).Perm (l.flatMap g) := by
  induction l with
  | nil => simp
  | cons x xs ih =>
    simp only [List.flatMap_cons]
    exact (h x (by simp)).append (ih (fun a ha => h a (by simp [ha])))

theorem buildGroups_ok (rows : List CsvRow)
    (h : ∀ r ∈ rows, ∀ e, rowStep r ≠ .error e) :
    ∀ acc, ∃ gs, buildGroups rows acc = .ok gs := by
  induction rows with
  | nil => intro acc; exact ⟨acc, rfl⟩
  | cons r rs ih =>
    intro acc
    cases hs : rowStep r with
    | error e => exact absurd hs (h r (by simp) e)
    | ok o =>
      cases o with
      | none =>
        obtain ⟨gs, hgs⟩ := ih (fun a ha e => h a (by simp [ha]) e) acc
        exact ⟨gs, by unfold buildGroups; rw [hs]; exact hgs⟩
      | some p =>
        obtain ⟨k, it⟩ := p
        obtain ⟨gs, hgs⟩ := ih (fun a ha e => h a (by simp [ha]) e) (pushGroup acc k it)
        exact ⟨gs, by unfold buildGroups; rw [hs]; exact hgs⟩

theorem retainedPairs_flat_eq (rows : List CsvRow)
    (h : ∀ r ∈ rows, 6 ≤ (splitPlayers (r.players.getD "")).length ∧
        (splitPlayers (r.players.getD "")).length ≤ 8 ∧ (pyInt r.race_number).isSome) :
    (retainedPairs rows).map pairToFlat = rows.filterMap contentOf := by
  induction rows with
  | nil => simp [retainedPairs]
  | cons r rs ih =>
    obtain ⟨h6, h8, hsome⟩ := h r (by simp)
    cases hn : pyInt r.race_number with
    | none => rw [hn] at hsome; exact absurd hsome (by simp)
    | some n =>
      have hs : rowStep r = .ok (some ((r.venue, r.grade),
          ⟨n, r.start_time, r.closed_at, splitPlayers (r.players.getD ""),
            r.class_category⟩)) := by
        unfold rowStep
        rw [if_neg (by exact fun hc => hc ⟨h6, h8⟩), hn]
      have hret : retainedPairs (r :: rs) = ((r.venue, r.grade),
          (⟨n, r.start_time, r.closed_at, splitPlayers (r.players.getD ""),
            r.class_category⟩ : RacesItem)) :: retainedPairs rs := by
        simp [retainedPairs, List.filterMap_cons, hs]
      rw [hret, List.map_cons, ih (fun a ha => h a (by simp [ha]))]
      have hc : contentOf r = some ⟨r.venue, r.grade, n, r.start_time, r.closed_at,
          splitPlayers (r.players.getD ""), r.class_category⟩ := by
        unfold contentOf
        rw [hn]
        rfl
      rw [List.filterMap_cons, hc]
      rfl

/-- C8 (amended).  For a row list in which every row passes the 6..8 players
validation and has a numeric race_number, the conversion succeeds and
flattening the grouped document yields, up to ordering, exactly the rows'
date-free content projections (all string fields preserved verbatim;
`race_number` is recovered as its numeric value; the `date` column is not
represented in the document and is not recovered). -/
theorem converter_round_trip (rows : List CsvRow)
    (h : ∀ r ∈ rows, 6 ≤ (splitPlayers (r.players.getD "")).length ∧
        (splitPlayers (r.players.getD "")).length ≤ 8 ∧ (pyInt r.race_number).isSome) :
    ∃ out, convert_rows rows = .ok out ∧
      (flattenDoc out).Perm (rows.filterMap contentOf) := by
  have hok : ∀ r ∈ rows, ∀ e, rowStep r ≠ .error e := by
    intro r hr e hstep
    obtain ⟨h6, h8, hsome⟩ := h r hr
    cases hn : pyInt r.race_number with
    | none => rw [hn] at hsome; exact absurd hsome (by simp)
    | some n =>
      unfold rowStep at hstep
      rw [if_neg (by exact fun hc => hc ⟨h6, h8⟩), hn] at hstep
      exact absurd hstep (by simp)
  obtain ⟨gs, hgs⟩ := buildGroups_ok rows hok []
  refine ⟨gs.map fun g => ⟨g.1.1, g.1.2, List.insertionSort raceLe g.2⟩, ?_, ?_⟩
  · unfold convert_rows
    rw [hgs]
    rfl
  · obtain ⟨_, hperm⟩ := buildGroups_spec rows [] gs hgs
    have hperm' : (flatGroups gs).Perm (retainedPairs rows) := by
      simpa [flatGroups] using hperm
    have h1 : flattenDoc (gs.map fun g => ⟨g.1.1, g.1.2, List.insertionSort raceLe g.2⟩) =
        gs.flatMap fun g => (List.insertionSort raceLe g.2).map fun it =>
          (⟨g.1.1, g.1.2, it.race_number, it.start_time, it.closed_at, it.players,
            it.class_category⟩ : FlatRow) := by
      unfold flattenDoc
      rw [List.flatMap_map]
    have h2 : ((flatGroups gs).map pairToFlat) =
        gs.flatMap fun g => g.2.map fun it =>
          (⟨g.1.1, g.1.2, it.race_number, it.start_time, it.closed_at, it.players,
            it.class_category⟩ : FlatRow) := by
      unfold flatGroups
      rw [List.map_flatMap]
      congr 1
      funext g
      rw [List.map_map]
      rfl
    rw [h1]
    refine (flatMap_perm_congr _ _ _
      (fun g _ => (List.perm_insertionSort raceLe g.2).map _)).trans ?_
    rw [← h2, ← retainedPairs_flat_eq rows h]
    exact hperm'.map pairToFlat

/-- C8, as frozen, is false: the grouped document does not contain the `date`
column, so two different row sets that differ only in `date` produce the same
document, and no flattening of the document can reproduce both originals. -/
def demoRowDate1 : CsvRow :=
  ⟨"20250101", "川口", "", "1", "15:00", "14:58", some "1a,2b,3c,4d,5e,6f", ""⟩

def demoRowDate2 : CsvRow :=
  { demoRowDate1 with date := "20250102" }

theorem converter_round_trip_counterexample :
    convert_rows [demoRowDate1] = convert_rows [demoRowDate2] ∧
    [demoRowDate1] ≠ [demoRowDate2] := by
  refine ⟨rfl, by decide⟩

theorem converter_round_trip_witness :
    ∃ out, convert_rows [demoRowA, demoRowB] = .ok out ∧
      (flattenDoc out).Perm ([demoRowA, demoRowB].filterMap contentOf) :=
  converter_round_trip [demoRowA, demoRowB] (by decide)

/-- C10.  On success, every players array in the grouped document has between
6 and 8 entries and contains no empty string: the converter splits the
comma-joined field and drops empty segments before validating. -/
theorem converter_players_invariant (rows : List CsvRow) (out : List VenueGroup)
    (h : convert_rows rows = .ok out) :
    ∀ g ∈ out, ∀ it ∈ g.races,
      6 ≤ it.players.length ∧ it.players.length ≤ 8 ∧ "" ∉ it.players := by
  unfold convert_rows at h
  cases hb : buildGroups rows [] with
  | error e => rw [hb] at h; exact absurd h (by simp [Except.map])
  | ok gs =>
    rw [hb] at h
    simp only [Except.map, Except.ok.injEq] at h
    subst h
    obtain ⟨_, hperm⟩ := buildGroups_spec rows [] gs hb
    have hperm' : (flatGroups gs).Perm (retainedPairs rows) := by
      simpa [flatGroups] using hperm
    intro g hg it hit
    rw [List.mem_map] at hg
    obtain ⟨p, hp, rfl⟩ := hg
    have hit' : it ∈ p.2 := (List.mem_insertionSort raceLe).mp hit
    have hmem : (p.1, it) ∈ flatGroups gs := by
      rw [flatGroups, List.mem_flatMap]
      exact ⟨p, hp, List.mem_map.mpr ⟨it, hit', rfl⟩⟩
    have hmem' : (p.1, it) ∈ retainedPairs rows := hperm'.mem_iff.mp hmem
    obtain ⟨r, _, hstep⟩ := retainedPairs_mem rows _ hmem'
    obtain ⟨_, hpl, h6, h8, _⟩ := rowStep_some_inv r p.1 it hstep
    refine ⟨h6, h8, ?_⟩
    rw [hpl]
    intro hcon
    have := (List.mem_filter.mp hcon).2
    simp at this

def demoRowCommas : CsvRow :=
  ⟨"20250101", "伊勢崎", "", "3", "16:00", "15:58", some ",1a,,2b,3c,4d,5e,6f,", ""⟩

theorem converter_players_invariant_witness :
    ∃ out, convert_rows [demoRowCommas] = .ok out ∧
      ∀ g ∈ out, ∀ it ∈ g.races,
        6 ≤ it.players.length ∧ it.players.length ≤ 8 ∧ "" ∉ it.players :=
  ⟨_, rfl, converter_players_invariant [demoRowCommas] _ rfl⟩

/-! ### Link discovery: collect_oneday_links and _filter_links_by_day -/

/-- Test whether the first list is an initial segment of the second. -/
def headSeg : List Char → List Char → Bool
  | [], _ => true
  | _ :: _, [] => false
  | n :: ns, h :: hs => n == h && headSeg ns hs

/-- Substring test, modelling Python's `in` on strings and the CSS substring
selector `a[href*=...]`. -/
def containsSub (needle : List Char) : List Char → Bool
  | [] => needle.isEmpty
  | c :: cs => headSeg needle (c :: cs) || containsSub needle cs

/-- Query component of a URL as split by `urlparse`: the text after the first
"?" of the part that precedes the fragment (the first "#"). -/
def urlQuery (u : String) : List Char :=
  match (u.data.takeWhile (fun c => c != '#')).dropWhile (fun c => c != '?') with
  | [] => []
  | _ :: rest => rest

/-- One field of a query string under `parse_qs` defaults: it must contain an
"=" (split once) and carry a nonempty value, otherwise it is dropped.
Percent decoding is not modelled; the fields used here are plain digits. -/
def qsField (seg : String) : Option (String × String) :=
  match seg.data.dropWhile (fun c => c != '=') with
  | [] => none
  | _ :: v =>
    if v.isEmpty then none
    else some (String.mk (seg.data.takeWhile (fun c => c != '=')), String.mk v)

/-- Fields of a query string as collected by `parse_qs`: split on "&", keep
valued fields, in order of appearance. -/
def qsPairs (q : List Char) : List (String × String) :=
  (splitOnCharAux '&' [] q).filterMap qsField

/-- Model of `(parse_qs(...).get(key) or [""])[0]`: the first value listed
for `key`, or "" when the key is absent. -/
def qsGet (q : List Char) (key : String) : String :=
  match (qsPairs q).find? (fun p => p.1 == key) with
  | some p => p.2
  | none => ""

def BASE : String := "https://www.oddspark.com"

/-- Model of `urljoin(BASE, href)` for the href shapes that reach it:
the empty string yields the base, absolute URLs are kept, root-relative and
relative paths are resolved against the base (whose path is empty).  In every
nonempty case the query component of `href` is preserved, as `urljoin`
preserves it. -/
def urljoin (base href : String) : String :=
  if href = "" then base
  else if containsSub "://".data href.data then href
  else if href.data.head? = some '/' then base ++ href
  else base ++ "/" ++ href

def oneDayPath : String := "/autorace/OneDayRaceList.do"

/-- `raceDy` query field of a URL. -/
def dyOf (u : String) : String := qsGet (urlQuery u) "raceDy"

/-- `placeCd` query field of a URL. -/
def pcOf (u : String) : String := qsGet (urlQuery u) "placeCd"

/-- Deduplication key `(raceDy, placeCd)`. -/
def keyOf (u : String) : String × String := (dyOf u, pcOf u)

/-- The CSS selection `a[href*="/autorace/OneDayRaceList.do"]`, applied to the
href attributes of a document region. -/
def selectOneDay (hrefs : List String) : List String :=
  hrefs.filter fun h => containsSub oneDayPath.data h.data

/-- A listing page as consumed by `collect_oneday_links`: the hrefs of all
anchors of the document, and those of the `#raceToday` section when that
section exists. -/
structure ListingDoc where
  anchors : List String
  raceToday : Option (List String)

/-- The collection loop of `collect_oneday_links`, with its `seen` set:
re-check the path substring, join against the base, parse `raceDy` and
`placeCd`, drop references missing either, and deduplicate by the pair. -/
def collectGo (seen : List (String × String)) : List String → List String
  | [] => []
  | href :: rest =>
    if containsSub oneDayPath.data href.data then
      if dyOf (urljoin BASE href) = "" ∨ pcOf (urljoin BASE href) = "" then
        collectGo seen rest
      else if keyOf (urljoin BASE href) ∈ seen then collectGo seen rest
      else urljoin BASE href :: collectGo (keyOf (urljoin BASE href) :: seen) rest
    else collectGo seen rest

/-- Model of `collect_oneday_links(kaisai_html)`: select the OneDay anchors of
the whole page, fall back to the `#raceToday` section only when none were
found, then run the dedup-collect loop. -/
def collect_oneday_links (doc : ListingDoc) : List String :=
  collectGo []
    (if (selectOneDay doc.anchors).isEmpty then
      (match doc.raceToday with
       | some sec => selectOneDay sec
       | none => [])
    else selectOneDay doc.anchors)

/-- The loop of `_filter_links_by_day`: keep links whose `raceDy` equals the
target and whose `placeCd` is nonempty, deduplicating by the pair. -/
def filterGo (raceDy : String) (seen : List (String × String)) : List String → List String
  | [] => []
  | u :: rest =>
    if dyOf u = raceDy ∧ pcOf u ≠ "" then
      if (dyOf u, pcOf u) ∈ seen then filterGo raceDy seen rest
      else u :: filterGo raceDy ((dyOf u, pcOf u) :: seen) rest
    else filterGo raceDy seen rest

/-- Model of `_filter_links_by_day(_links, _raceDy)`. -/
def filter_links_by_day (links : List String) (raceDy : String) : List String :=
  filterGo raceDy [] links

theorem filterGo_mem (d : String) (l : List String) :
    ∀ (seen : List (String × String)) (u : String),
      u ∈ filterGo d seen l → dyOf u = d ∧ pcOf u ≠ "" := by
  induction l with
  | nil => intro seen u hu; exact absurd hu (by simp [filterGo])
  | cons v rest ih =>
    intro seen u hu
    have he : filterGo d seen (v :: rest) =
        if dyOf v = d ∧ pcOf v ≠ "" then
          if (dyOf v, pcOf v) ∈ seen then filterGo d seen rest
          else v :: filterGo d ((dyOf v, pcOf v) :: seen) rest
        else filterGo d seen rest := rfl
    rw [he] at hu
    by_cases h1 : dyOf v = d ∧ pcOf v ≠ ""
    · rw [if_pos h1] at hu
      by_cases h2 : (dyOf v, pcOf v) ∈ seen
      · rw [if_pos h2] at hu
        exact ih seen u hu
      · rw [if_neg h2] at hu
        rcases List.mem_cons.mp hu with rfl | hu'
        · exact h1
        · exact ih _ u hu'
    · rw [if_neg h1] at hu
      exact ih seen u hu

theorem filterGo_not_seen (d : String) (l : List String) :
    ∀ (seen : List (String × String)) (u : String),
      u ∈ filterGo d seen l → keyOf u ∉ seen := by
  induction l with
  | nil => intro seen u hu; exact absurd hu (by simp [filterGo])
  | cons v rest ih =>
    intro seen u hu
    have he : filterGo d seen (v :: rest) =
        if dyOf v = d ∧ pcOf v ≠ "" then
          if (dyOf v, pcOf v) ∈ seen then filterGo d seen rest
          else v :: filterGo d ((dyOf v, pcOf v) :: seen) rest
        else filterGo d seen rest := rfl
    rw [he] at hu
    by_cases h1 : dyOf v = d ∧ pcOf v ≠ ""
    · rw [if_pos h1] at hu
      by_cases h2 : (dyOf v, pcOf v) ∈ seen
      · rw [if_pos h2] at hu
        exact ih seen u hu
      · rw [if_neg h2] at hu
        rcases List.mem_cons.mp hu with rfl | hu'
        · exact h2
        · have := ih _ u hu'
          intro hc
          exact this (List.mem_cons_of_mem _ hc)
    · rw [if_neg h1] at hu
      exact ih seen u hu

theorem filterGo_pairwise (d : String) (l : List String) :
    ∀ seen : List (String × String),
      (filterGo d seen l).Pairwise (fun u v => keyOf u ≠ keyOf v) := by
  induction l with
  | nil => intro seen; simp [filterGo]
  | cons v rest ih =>
    intro seen
    have he : filterGo d seen (v :: rest) =
        if dyOf v = d ∧ pcOf v ≠ "" then
          if (dyOf v, pcOf v) ∈ seen then filterGo d seen rest
          else v :: filterGo d ((dyOf v, pcOf v) :: seen) rest
        else filterGo d seen rest := rfl
    rw [he]
    by_cases h1 : dyOf v = d ∧ pcOf v ≠ ""
    · rw [if_pos h1]
      by_cases h2 : (dyOf v, pcOf v) ∈ seen
      · rw [if_pos h2]; exact ih seen
      · rw [if_neg h2]
        refine List.Pairwise.cons ?_ (ih _)
        intro u hu hc
        have := filterGo_not_seen d rest _ u hu
        exact this (by rw [← hc]; exact List.mem_cons_self _ _)
    · rw [if_neg h1]
      exact ih seen

theorem filterGo_sublist (d : String) (l : List String) :
    ∀ seen : List (String × String), (filterGo d seen l).Sublist l := by
  induction l with
  | nil => intro seen; simp [filterGo]
  | cons v rest ih =>
    intro seen
    have he : filterGo d seen (v :: rest) =
        if dyOf v = d ∧ pcOf v ≠ "" then
          if (dyOf v, pcOf v) ∈ seen then filterGo d seen rest
          else v :: filterGo d ((dyOf v, pcOf v) :: seen) rest
        else filterGo d seen rest := rfl
    rw [he]
    by_cases h1 : dyOf v = d ∧ pcOf v ≠ ""
    · rw [if_pos h1]
      by_cases h2 : (dyOf v, pcOf v) ∈ seen
      · rw [if_pos h2]; exact (ih seen).cons v
      · rw [if_neg h2]; exact (ih _).cons₂ v
    · rw [if_neg h1]
      exact (ih seen).cons v

theorem collectGo_mem (l : List String) :
    ∀ (seen : List (String × String)) (u : String),
      u ∈ collectGo seen l → dyOf u ≠ "" ∧ pcOf u ≠ "" := by
  induction l with
  | nil => intro seen u hu; exact absurd hu (by simp [collectGo])
  | cons href rest ih =>
    intro seen u hu
    have he : collectGo seen (href :: rest) =
        if containsSub oneDayPath.data href.data then
          if dyOf (urljoin BASE href) = "" ∨ pcOf (urljoin BASE href) = "" then
            collectGo seen rest
          else if keyOf (urljoin BASE href) ∈ seen then collectGo seen rest
          else urljoin BASE href :: collectGo (keyOf (urljoin BASE href) :: seen) rest
        else collectGo seen rest := rfl
    rw [he] at hu
    by_cases h0 : containsSub oneDayPath.data href.data
    · rw [if_pos h0] at hu
      by_cases h1 : dyOf (urljoin BASE href) = "" ∨ pcOf (urljoin BASE href) = ""
      · rw [if_pos h1] at hu
        exact ih seen u hu
      · rw [if_neg h1] at hu
        by_cases h2 : keyOf (urljoin BASE href) ∈ seen
        · rw [if_pos h2] at hu
          exact ih seen u hu
        · rw [if_neg h2] at hu
          rcases List.mem_cons.mp hu with rfl | hu'
          · exact ⟨fun hc => h1 (Or.inl hc), fun hc => h1 (Or.inr hc)⟩
          · exact ih _ u hu'
    · rw [if_neg h0] at hu
      exact ih seen u hu

/-- C4.  Discovery followed by the day filter yields only references whose
`raceDy` equals the target and whose `placeCd` is present, with at most one
reference per (raceDy, placeCd) pair, as a subsequence (preserving first-seen
order) of the discovered list; references missing either query field never
survive discovery.  The same composition runs on the first fetch and on the
date-parameterized retry, so the statement covers both. -/
theorem link_day_filter (doc : ListingDoc) (target : String) :
    (∀ u ∈ filter_links_by_day (collect_oneday_links doc) target,
        dyOf u = target ∧ pcOf u ≠ "") ∧
    (filter_links_by_day (collect_oneday_links doc) target).Pairwise
        (fun u v => keyOf u ≠ keyOf v) ∧
    (filter_links_by_day (collect_oneday_links doc) target).Sublist
        (collect_oneday_links doc) ∧
    (∀ u ∈ collect_oneday_links doc, dyOf u ≠ "" ∧ pcOf u ≠ "") := by
  refine ⟨?_, ?_, ?_, ?_⟩
  · intro u hu
    exact filterGo_mem target (collect_oneday_links doc) [] u hu
  · exact filterGo_pairwise target (collect_oneday_links doc) []
  · exact filterGo_sublist target (collect_oneday_links doc) []
  · intro u hu
    exact collectGo_mem _ [] u hu

/-- A listing page holding a duplicate reference, a reference of another day,
a reference missing its day, and an unrelated anchor. -/
def demoListing : ListingDoc :=
  ⟨["/autorace/OneDayRaceList.do?raceDy=20250101&placeCd=02",
    "/autorace/OneDayRaceList.do?raceDy=20250101&placeCd=02",
    "/autorace/OneDayRaceList.do?raceDy=20250102&placeCd=03",
    "/autorace/OneDayRaceList.do?placeCd=04",
    "/autorace/KaisaiRaceList.do"], none⟩

theorem link_day_filter_witness :
    filter_links_by_day (collect_oneday_links demoListing) "20250101" =
      ["https://www.oddspark.com/autorace/OneDayRaceList.do?raceDy=20250101&placeCd=02"] ∧
    dyOf "https://www.oddspark.com/autorace/OneDayRaceList.do?raceDy=20250101&placeCd=02" =
      "20250101" := by
  refine ⟨rfl, ?_⟩
  exact ((link_day_filter demoListing "20250101").1
    "https://www.oddspark.com/autorace/OneDayRaceList.do?raceDy=20250101&placeCd=02"
    (List.mem_singleton.mpr rfl)).1

/-! ### Race extraction: extract_races_from_oneday -/

/-- Word character for the regex boundary `\b`: ASCII alphanumerics, the
underscore, and the Japanese letter ranges occurring on these pages (kana and
CJK, from U+3040 on). -/
def isWordChar (c : Char) : Bool := c.isAlphanum || c == '_' || 0x3040 ≤ c.toNat

/-- Attempted match of `(\d+)\s*R\b` at the head of the text: a nonempty digit
run, optional whitespace, the letter R, and no word character after it. -/
def numRAt (cs : List Char) : Option Nat :=
  if (cs.takeWhile isDig).isEmpty then none
  else
    match (cs.dropWhile isDig).dropWhile isPySpace with
    | 'R' :: tail =>
      match tail with
      | [] => some (digitsToNat (cs.takeWhile isDig))
      | c :: _ => if isWordChar c then none else some (digitsToNat (cs.takeWhile isDig))
    | _ => none

/-- Leftmost search of `(\d+)\s*R\b` over the heading text, as `re.search`
performs it; yields the integer value of the digit group of the first
position where the pattern matches. -/
def searchNumR : List Char → Option Nat
  | [] => none
  | c :: cs =>
    match numRAt (c :: cs) with
    | some n => some n
    | none => searchNumR cs

/-- Match of `\d{2}:\d{2}` at the head (the greedy two-digit-hour reading of
`\d{1,2}:\d{2}`). -/
def twoDigitTime : List Char → Option (Nat × Nat)
  | d1 :: d2 :: c :: d3 :: d4 :: _ =>
    if isDig d1 && isDig d2 && c == ':' && isDig d3 && isDig d4 then
      some (10 * dv d1 + dv d2, 10 * dv d3 + dv d4)
    else none
  | _ => none

/-- Match of `\d:\d{2}` at the head (the backtracked one-digit-hour reading). -/
def oneDigitTime : List Char → Option (Nat × Nat)
  | d1 :: c :: d3 :: d4 :: _ =>
    if isDig d1 && c == ':' && isDig d3 && isDig d4 then
      some (dv d1, 10 * dv d3 + dv d4)
    else none
  | _ => none

/-- Match of `\d{1,2}:\d{2}` at the first digit after the gap `[^\d]*`:
greedy two digits first, then the backtracked single digit. -/
def timeAtDigit (cs : List Char) : Option (Nat × Nat) :=
  match twoDigitTime cs with
  | some r => some r
  | none => oneDigitTime cs

/-- Search of `(発走(?:時間|予定)?)[^\d]*(\d{1,2}:\d{2})`, as `re.search`
performs it.  At each occurrence of 発走, the optional suffix (made of
non-digits) and the gap `[^\d]*` together consume exactly the characters up
to the first digit, where the time pattern must match; otherwise the search
continues at the next occurrence. -/
def searchHasso : List Char → Option (Nat × Nat)
  | [] => none
  | c :: rest =>
    if c == '発' then
      match rest with
      | '走' :: tail =>
        (match timeAtDigit (tail.dropWhile (fun ch => !isDig ch)) with
         | some r => some r
         | none => searchHasso rest)
      | _ => searchHasso rest
    else searchHasso rest

/-- Search of the alternative `車\s*番` of the roster keyword pattern. -/
def hasKurumaBan : List Char → Bool
  | [] => false
  | c :: cs =>
    (c == '車' && (match cs.dropWhile isPySpace with
      | '番' :: _ => true
      | _ => false)) || hasKurumaBan cs

/-- Keyword guard of the roster table:
`re.search(r"(車\s*番|選手名|LG|ハンデ|現ランク|審査|試走)", head_txt)`. -/
def hasRosterKeyword (cs : List Char) : Bool :=
  hasKurumaBan cs || containsSub "選手名".data cs || containsSub "LG".data cs ||
  containsSub "ハンデ".data cs || containsSub "現ランク".data cs ||
  containsSub "審査".data cs || containsSub "試走".data cs

/-- Category alternatives `(一般|予選|準決勝?|優勝戦|特別|選抜)` tried at one
position, in the regex order, with the greedy optional 勝. -/
def catAt (cs : List Char) : Option String :=
  if headSeg "一般".data cs then some "一般"
  else if headSeg "予選".data cs then some "予選"
  else if headSeg "準決".data cs then
    (if headSeg "準決勝".data cs then some "準決勝" else some "準決")
  else if headSeg "優勝戦".data cs then some "優勝戦"
  else if headSeg "特別".data cs then some "特別"
  else if headSeg "選抜".data cs then some "選抜"
  else none

/-- Leftmost category match over the heading; "" when nothing matches, as the
extractor defaults `cat`. -/
def searchCategory : List Char → String
  | [] => ""
  | c :: cs =>
    match catAt (c :: cs) with
    | some s => s
    | none => searchCategory cs

/-- Match of `bg-[1-8]\b` at the head of a class token. -/
def bgAt : List Char → Bool
  | 'b' :: 'g' :: '-' :: d :: rest =>
    ('1' ≤ d && d ≤ '8') &&
      (match rest with
       | [] => true
       | c :: _ => !isWordChar c)
  | _ => false

/-- Search of `\bbg-[1-8]\b` through a class token, tracking whether the
previous character is a word character for the left boundary. -/
def bgSearchFrom : Option Char → List Char → Bool
  | _, [] => false
  | prev, c :: cs =>
    ((match prev with
      | none => true
      | some p => !isWordChar p) && bgAt (c :: cs)) || bgSearchFrom (some c) cs

/-- `re.compile(r"\bbg-[1-8]\b")` applied to one class token; BeautifulSoup
matches a class regex against each token of the multi-valued attribute. -/
def matchesBg (cl : String) : Bool := bgSearchFrom none cl.data

/-- A table cell: its stripped text and its class attribute tokens. -/
structure Td where
  text : String
  cls : List String

/-- A table row with its `td` cells. -/
structure Tr where
  tds : List Td

/-- A roster candidate table: its whole text (`get_text(" ", strip=True)`)
and its rows. -/
structure Table where
  headText : String
  trs : List Tr

/-- One `div.h30` race block as the extractor consumes it: the text of the
`strong > a[href*="/autorace/RaceList.do"]` anchor when it exists, the text
of `span.start-time strong` when present, the two fallback text windows
(`box.get_text(" ", strip=True)` and the joined text of the first five
descendants), and the first following table when one exists. -/
structure RaceBox where
  anchor : Option String
  startStrong : Option String
  nearText : String
  nearText2 : String
  table : Option Table

/-- `re.sub(r"\s+", "", text)`: removal of all whitespace. -/
def stripAllSpace (s : String) : String := String.mk (s.data.filter (fun c => !isPySpace c))

/-- `re.fullmatch(r"[1-8]", car_txt)`. -/
def isLane (s : String) : Bool :=
  match s.data with
  | [c] => '1' ≤ c && c ≤ '8'
  | _ => false

/-- One roster row: skip rows without cells; the first cell carrying a
`bg-[1-8]` class must read as a single digit 1..8; the name comes from
`td.racer1`, else from the first nonempty cell after the leading cell; the
emitted entry is `f"{car_txt}{name_txt}"` with all whitespace removed from
the name. -/
def playersOfRow (tr : Tr) : Option String :=
  if tr.tds.isEmpty then none
  else
    match tr.tds.find? (fun td : Td => td.cls.any matchesBg) with
    | none => none
    | some car_td =>
      if isLane car_td.text then
        match
          (match tr.tds.find? (fun td : Td => td.cls.contains "racer1") with
           | some nc => some nc
           | none => ((tr.tds.drop 1).filter (fun td : Td => td.text ≠ "")).head?) with
        | none => none
        | some nc => some (car_td.text ++ stripAllSpace nc.text)
      else none

/-- The roster extracted from a table, one entry per accepted row. -/
def extractPlayers (tbl : Table) : List String := tbl.trs.filterMap playersOfRow

/-- Python's `f"{x:02d}"`: decimal rendering zero-padded to width 2. -/
def py02d (x : Int) : String := if 0 ≤ x ∧ x < 10 then "0" ++ toString x else toString x

/-- The `hh, mm = st.get_text(strip=True).split(":")` unpacking followed by
`f"{int(hh):02d}:{int(mm):02d}"`: raises `ValueError` when the text does not
split into exactly two parts or a part is not a decimal literal. -/
def parseStartStrong (txt : String) : Except String String :=
  match splitOnChar ':' txt with
  | [hh, mm] =>
    match pyInt hh, pyInt mm with
    | some a, some b => .ok (py02d a ++ ":" ++ py02d b)
    | _, _ => .error "ValueError: invalid literal for int()"
  | _ => .error "ValueError: unpack mismatch"

/-- Start-time resolution of a race block: the dedicated
`span.start-time strong` element when present (whose malformed content
raises), otherwise the 発走 regex over the near text, widened once to the
second window; `none` when everything misses. -/
def resolveStart (box : RaceBox) : Except String (Option String) :=
  match box.startStrong with
  | some txt => (parseStartStrong txt).map some
  | none =>
    match searchHasso box.nearText.data with
    | some r => .ok (some (py02d (r.1 : Int) ++ ":" ++ py02d (r.2 : Int)))
    | none =>
      match searchHasso box.nearText2.data with
      | some r => .ok (some (py02d (r.1 : Int) ++ ":" ++ py02d (r.2 : Int)))
      | none => .ok none

/-- Python truthiness of the `start_time` variable (None and "" are falsy). -/
def startTruthy : Option String → Bool
  | none => false
  | some s => !(s == "")

/-- One element of the extractor's `race_sections`. -/
structure RaceRow where
  race_number : Nat
  start_time : String
  closed_at : String
  players : List String
  class_category : String
deriving DecidableEq

def rowLe (a b : RaceRow) : Prop := a.race_number ≤ b.race_number

instance : DecidableRel rowLe := fun a b => Nat.decLe a.race_number b.race_number

/-- `title.replace("\u3000", " ")`. -/
def zenkakuToSpace (s : String) : String :=
  String.mk (s.data.map fun c => if c = '　' then ' ' else c)

/-- Processing of one `div.h30` block, in the source's order: skip when the
anchor or its ordinal is missing, resolve the start time (which may raise),
skip when the table is missing or fails the keyword guard, extract the
roster, and accept the block only when the roster has 6..8 entries and the
start time is truthy. -/
def processBox (raceDy : String) (box : RaceBox) : Except String (Option RaceRow) :=
  match box.anchor with
  | none => .ok none
  | some atext =>
    match searchNumR (zenkakuToSpace atext).data with
    | none => .ok none
    | some race_no =>
      match resolveStart box with
      | .error e => .error e
      | .ok start_time =>
        match box.table with
        | none => .ok none
        | some tbl =>
          if hasRosterKeyword tbl.headText.data then
            if 6 ≤ (extractPlayers tbl).length ∧ (extractPlayers tbl).length ≤ 8 ∧
                startTruthy start_time = true then
              match start_time with
              | some st =>
                .ok (some ⟨race_no, st, hhmm_to_closed st raceDy, extractPlayers tbl,
                  searchCategory (zenkakuToSpace atext).data⟩)
              | none => .ok none
            else .ok none
          else .ok none

/-- Result of `extract_races_from_oneday`. -/
structure OneDayData where
  venue : String
  grade : String
  rows : List RaceRow
deriving DecidableEq

/-- The fixed venue-code table (01 unused). -/
def PLACECD_TO_VENUE (pc : String) : String :=
  if pc = "02" then "川口"
  else if pc = "03" then "伊勢崎"
  else if pc = "04" then "浜松"
  else if pc = "05" then "飯塚"
  else if pc = "06" then "山陽"
  else ""

/-- The block loop of the extractor; an exception in any block propagates. -/
def collectBoxes (raceDy : String) : List RaceBox → Except String (List RaceRow)
  | [] => .ok []
  | b :: bs =>
    match processBox raceDy b with
    | .error e => .error e
    | .ok none => collectBoxes raceDy bs
    | .ok (some r) =>
      match collectBoxes raceDy bs with
      | .error e => .error e
      | .ok rs => .ok (r :: rs)

/-- Model of `extract_races_from_oneday(html, raceDy, placeCd)`: process all
`div.h30` blocks and sort the accepted rows by race number (Python's stable
sort, modelled by the stable `insertionSort`). -/
def extract_races_from_oneday (boxes : List RaceBox) (raceDy placeCd : String) :
    Except String OneDayData :=
  match collectBoxes raceDy boxes with
  | .error e => .error e
  | .ok rows => .ok ⟨PLACECD_TO_VENUE placeCd, "", List.insertionSort rowLe rows⟩

theorem startTruthy_iff (st : Option String) :
    startTruthy st = true ↔ ∃ s, st = some s ∧ s ≠ "" := by
  cases st with
  | none => simp [startTruthy]
  | some s => simp [startTruthy]

/-- Unfolding of `processBox` under the hypotheses that the heading, its
ordinal, the start-time resolution and the table are all available. -/
theorem processBox_eq (raceDy : String) (box : RaceBox) (atext : String) (race_no : Nat)
    (tbl : Table) (st : Option String)
    (h1 : box.anchor = some atext)
    (h2 : searchNumR (zenkakuToSpace atext).data = some race_no)
    (h3 : resolveStart box = .ok st)
    (h4 : box.table = some tbl) :
    processBox raceDy box =
      (if hasRosterKeyword tbl.headText.data then
        if 6 ≤ (extractPlayers tbl).length ∧ (extractPlayers tbl).length ≤ 8 ∧
            startTruthy st = true then
          match st with
          | some s =>
            .ok (some ⟨race_no, s, hhmm_to_closed s raceDy, extractPlayers tbl,
              searchCategory (zenkakuToSpace atext).data⟩)
          | none => .ok none
        else .ok none
      else .ok none) := by
  unfold processBox
  rw [h1]
  dsimp only
  rw [h2]
  dsimp only
  simp only [h3]
  rw [h4]
  dsimp only
  cases st <;> rfl

theorem collectBoxes_mem (raceDy : String) (boxes : List RaceBox) :
    ∀ rows, collectBoxes raceDy boxes = .ok rows →
      ∀ r ∈ rows, ∃ box ∈ boxes, processBox raceDy box = .ok (some r) := by
  induction boxes with
  | nil =>
    intro rows h r hr
    obtain rfl : ([] : List RaceRow) = rows := by simpa [collectBoxes] using h
    exact absurd hr (by simp)
  | cons b bs ih =>
    intro rows h r hr
    unfold collectBoxes at h
    cases hp : processBox raceDy b with
    | error e => rw [hp] at h; exact absurd h (by simp)
    | ok o =>
      rw [hp] at h
      cases o with
      | none =>
        obtain ⟨box, hbox, hrun⟩ := ih rows h r hr
        exact ⟨box, List.mem_cons_of_mem b hbox, hrun⟩
      | some r0 =>
        cases hc : collectBoxes raceDy bs with
        | error e => rw [hc] at h; exact absurd h (by simp)
        | ok rs =>
          rw [hc] at h
          have : r0 :: rs = rows := by simpa using h
          subst this
          rcases List.mem_cons.mp hr with rfl | hr'
          · exact ⟨b, List.mem_cons_self b bs, hp⟩
          · obtain ⟨box, hbox, hrun⟩ := ih rs hc r hr'
            exact ⟨box, List.mem_cons_of_mem b hbox, hrun⟩

/-- C3.  For a block whose heading ordinal parses, whose start-time
resolution did not raise and whose table passes the keyword guard: the block
contributes a row iff the extracted roster has 6..8 entries and the start
time resolved to a nonempty string; every contributed row carries the full
roster (never truncated or padded) and the parsed ordinal; a 5- or 9-entry
roster drops the whole block; and every row of an extraction result comes
from a block that fully passed this gate (no partial rows). -/
theorem extractor_block_gate :
    (∀ (raceDy : String) (box : RaceBox) (atext : String) (race_no : Nat) (tbl : Table)
        (st : Option String),
      box.anchor = some atext →
      searchNumR (zenkakuToSpace atext).data = some race_no →
      resolveStart box = .ok st →
      box.table = some tbl →
      hasRosterKeyword tbl.headText.data = true →
      (((∃ r, processBox raceDy box = .ok (some r)) ↔
        (6 ≤ (extractPlayers tbl).length ∧ (extractPlayers tbl).length ≤ 8 ∧
         ∃ s, st = some s ∧ s ≠ "")) ∧
       (∀ r, processBox raceDy box = .ok (some r) →
          r.players = extractPlayers tbl ∧ r.race_number = race_no) ∧
       ((extractPlayers tbl).length = 5 ∨ (extractPlayers tbl).length = 9 →
          processBox raceDy box = .ok none))) ∧
    (∀ (raceDy placeCd : String) (boxes : List RaceBox) (res : OneDayData),
      extract_races_from_oneday boxes raceDy placeCd = .ok res →
      ∀ r ∈ res.rows, ∃ box ∈ boxes, processBox raceDy box = .ok (some r)) := by
  constructor
  · intro raceDy box atext race_no tbl st h1 h2 h3 h4 h5
    rw [processBox_eq raceDy box atext race_no tbl st h1 h2 h3 h4]
    rw [if_pos h5]
    by_cases hc : 6 ≤ (extractPlayers tbl).length ∧ (extractPlayers tbl).length ≤ 8 ∧
        startTruthy st = true
    · rw [if_pos hc]
      obtain ⟨hc1, hc2, hc3⟩ := hc
      obtain ⟨s, hs, hne⟩ := (startTruthy_iff st).mp hc3
      subst hs
      refine ⟨?_, ?_, ?_⟩
      · constructor
        · intro _
          exact ⟨hc1, hc2, s, rfl, hne⟩
        · intro _
          exact ⟨_, rfl⟩
      · intro r hr
        have := Option.some.inj (Except.ok.inj hr)
        rw [← this]
        exact ⟨rfl, rfl⟩
      · intro hlen
        omega
    · rw [if_neg hc]
      refine ⟨?_, ?_, ?_⟩
      · constructor
        · intro ⟨r, hr⟩
          exact absurd (Except.ok.inj hr) (by simp)
        · intro ⟨hl1, hl2, s, hs, hne⟩
          exact absurd ⟨hl1, hl2, (startTruthy_iff st).mpr ⟨s, hs, hne⟩⟩ hc
      · intro r hr
        exact absurd (Except.ok.inj hr) (by simp)
      · intro _
        rfl
  · intro raceDy placeCd boxes res h
    unfold extract_races_from_oneday at h
    cases hc : collectBoxes raceDy boxes with
    | error e => rw [hc] at h; exact absurd h (by simp)
    | ok rows =>
      rw [hc] at h
      have hres : res = ⟨PLACECD_TO_VENUE placeCd, "", List.insertionSort rowLe rows⟩ :=
        (Except.ok.inj h).symm
      subst hres
      intro r hr
      exact collectBoxes_mem raceDy boxes rows hc r
        ((List.mem_insertionSort rowLe).mp hr)

/-- A complete demonstration block: heading "1R 予選 ...", no dedicated time
element, a resolvable fallback time, and a six-entry roster table. -/
def demoTr (lane : String) (name : String) : Tr :=
  ⟨[⟨lane, ["bg-" ++ lane]⟩, ⟨name, ["racer1"]⟩]⟩

def demoTable : Table :=
  ⟨"車番 選手名 ハンデ",
   [demoTr "1" "中村一", demoTr "2" "鈴木二", demoTr "3" "佐藤三",
    demoTr "4" "田中四", demoTr "5" "高橋五", demoTr "6" "渡辺六"]⟩

def demoBox : RaceBox :=
  ⟨some "1R 予選 3100m(6周)", none, "発走時間 18:48", "", some demoTable⟩

theorem extractor_block_gate_witness :
    ∃ r, processBox "20250101" demoBox = .ok (some r) :=
  ((extractor_block_gate.1 "20250101" demoBox "1R 予選 3100m(6周)" 1 demoTable
      (some "18:48") rfl rfl rfl rfl rfl).1).mpr
    ⟨by decide, by decide, "18:48", rfl, by decide⟩

/-- C6 fails on the code: a block whose dedicated time element does not
contain an "HH:MM" text makes the extractor raise `ValueError` from
`hh, mm = st.get_text(strip=True).split(":")`, instead of skipping the
block. -/
def badTimeBox : RaceBox :=
  ⟨some "1R 予選", some "1848", "", "", some demoTable⟩

theorem extractor_raises_on_bad_time :
    extract_races_from_oneday [badTimeBox] "20250101" "02" =
      .error "ValueError: unpack mismatch" ∧
    processBox "20250101" badTimeBox = .error "ValueError: unpack mismatch" := by
  exact ⟨rfl, rfl⟩

/-! ### Orchestrator: http_get and the page-crawling loop of main -/

/-- Outcome of one `requests.get` attempt. -/
inductive TryOutcome where
  | resp (status : Nat) (text : String)
  | exc (msg : String)

/-- The retry loop of `http_get`, carrying the last exception and the last
response as the Python locals do: a 200 response with nonempty text returns
immediately; after the loop, a recorded exception is re-raised, otherwise
`raise_for_status` raises on status >= 400, otherwise the last response is
returned. -/
def http_get_go (tries : Nat → TryOutcome) :
    Nat → Nat → Option String → Option (Nat × String) → Except String (Nat × String)
  | _, 0, lastExc, lastResp =>
    (match lastExc with
     | some e => .error e
     | none =>
       match lastResp with
       | some (st, tx) =>
         if 400 ≤ st then .error ("HTTPError " ++ toString st) else .ok (st, tx)
       | none => .error "NameError: r is not defined")
  | i, fuel + 1, lastExc, lastResp =>
    (match tries i with
     | .resp st tx =>
       if st = 200 ∧ tx ≠ "" then .ok (st, tx)
       else http_get_go tries (i + 1) fuel lastExc (some (st, tx))
     | .exc m => http_get_go tries (i + 1) fuel (some m) lastResp)

/-- Model of `http_get(url, max_retry)`: the url is abstracted into the
sequence of attempt outcomes. -/
def http_get (tries : Nat → TryOutcome) (max_retry : Nat) : Except String (Nat × String) :=
  http_get_go tries 1 max_retry none none

/-- One CSV output row of the crawler, in the writer's column order. -/
structure CsvOutRow where
  date : String
  venue : String
  grade : String
  race_number : Nat
  start_time : String
  closed_at : String
  players : String
  class_category : String
deriving DecidableEq

/-- `",".join(players)`. -/
def joinComma : List String → String
  | [] => ""
  | [s] => s
  | s :: rest => s ++ "," ++ joinComma rest

/-- The page-crawling loop of `main`, over the filtered links, accumulating
`rows_out`.  Fetching and parsing one page is the collaborator
`fetchDoc`; an uncaught exception from the fetch (retry exhaustion) or from
the extractor propagates out of the loop, as the source has no handler
around `http_get(url)` or `extract_races_from_oneday`. -/
def crawlGo (fetchDoc : String → Except String (List RaceBox)) (raceDy : String)
    (acc : List CsvOutRow) : List String → Except String (List CsvOutRow)
  | [] => .ok acc
  | url :: rest =>
    if dyOf url = "" ∨ pcOf url = "" then crawlGo fetchDoc raceDy acc rest
    else if dyOf url ≠ raceDy then crawlGo fetchDoc raceDy acc rest
    else
      match fetchDoc url with
      | .error e => .error e
      | .ok boxes =>
        match extract_races_from_oneday boxes (dyOf url) (pcOf url) with
        | .error e => .error e
        | .ok data =>
          crawlGo fetchDoc raceDy
            (acc ++ data.rows.map fun r =>
              ⟨dyOf url, data.venue, data.grade, r.race_number, r.start_time, r.closed_at,
                joinComma r.players, r.class_category⟩) rest

theorem http_get_go_all_exc (tries : Nat → TryOutcome)
    (hexc : ∀ i, ∃ m, tries i = .exc m) :
    ∀ (fuel i : Nat) (lexc : Option String),
      ∃ m, http_get_go tries i fuel lexc none = .error m := by
  intro fuel
  induction fuel with
  | zero =>
    intro i lexc
    cases lexc with
    | none => exact ⟨"NameError: r is not defined", rfl⟩
    | some e => exact ⟨e, rfl⟩
  | succ n ih =>
    intro i lexc
    obtain ⟨m, hm⟩ := hexc i
    have he : http_get_go tries i (n + 1) lexc none =
        (match tries i with
         | .resp st tx =>
           if st = 200 ∧ tx ≠ "" then .ok (st, tx)
           else http_get_go tries (i + 1) n lexc (some (st, tx))
         | .exc m => http_get_go tries (i + 1) n (some m) none) := rfl
    rw [he, hm]
    exact ih (i + 1) (some m)

/-- C5 (amended).  Exhausting the retry budget makes `http_get` raise, and an
uncaught fetch failure on a surviving reference aborts the whole crawl with
that error, regardless of the remaining references and of the rows already
accumulated — the loop does not continue to the next reference. -/
theorem crawl_abort_on_fetch_failure :
    (∀ (tries : Nat → TryOutcome) (n : Nat),
      (∀ i, ∃ m, tries i = .exc m) → ∃ m, http_get tries n = .error m) ∧
    (∀ (fetchDoc : String → Except String (List RaceBox)) (raceDy : String)
        (acc : List CsvOutRow) (url : String) (rest : List String) (e : String),
      dyOf url = raceDy → dyOf url ≠ "" → pcOf url ≠ "" → fetchDoc url = .error e →
      crawlGo fetchDoc raceDy acc (url :: rest) = .error e) := by
  constructor
  · intro tries n hexc
    exact http_get_go_all_exc tries hexc n 1 none
  · intro fetchDoc raceDy acc url rest e hdy hdy0 hpc hfetch
    have he : crawlGo fetchDoc raceDy acc (url :: rest) =
        (if dyOf url = "" ∨ pcOf url = "" then crawlGo fetchDoc raceDy acc rest
         else if dyOf url ≠ raceDy then crawlGo fetchDoc raceDy acc rest
         else
           match fetchDoc url with
           | .error e => .error e
           | .ok boxes =>
             match extract_races_from_oneday boxes (dyOf url) (pcOf url) with
             | .error e => .error e
             | .ok data =>
               crawlGo fetchDoc raceDy
                 (acc ++ data.rows.map fun r =>
                   ⟨dyOf url, data.venue, data.grade, r.race_number, r.start_time,
                     r.closed_at, joinComma r.players, r.class_category⟩) rest) := rfl
    rw [he]
    rw [if_neg (by push_neg; exact ⟨hdy0, hpc⟩)]
    rw [if_neg (by push_neg; exact hdy)]
    rw [hfetch]

def demoOneDayUrl1 : String :=
  "https://www.oddspark.com/autorace/OneDayRaceList.do?raceDy=20250101&placeCd=02"

def demoOneDayUrl2 : String :=
  "https://www.oddspark.com/autorace/OneDayRaceList.do?raceDy=20250101&placeCd=03"

/-- A fetch collaborator whose retries are exhausted on the second venue page. -/
def demoFetch (url : String) : Except String (List RaceBox) :=
  if url = demoOneDayUrl1 then .ok [demoBox] else .error "ConnectionError: retries exhausted"

/-- C5, as frozen, is false on the code: with two surviving references where
the first yields rows and the second's fetch fails after retries, the crawl
aborts with the error and the rows of the first page are lost, whereas the
first reference alone yields them. -/
theorem crawl_abort_counterexample :
    crawlGo demoFetch "20250101" [] [demoOneDayUrl1, demoOneDayUrl2] =
      .error "ConnectionError: retries exhausted" ∧
    crawlGo demoFetch "20250101" [] [demoOneDayUrl1] =
      .ok [⟨"20250101", "川口", "", 1, "18:48", "18:46",
        "1中村一,2鈴木二,3佐藤三,4田中四,5高橋五,6渡辺六", "予選"⟩] := by
  exact ⟨rfl, rfl⟩

theorem crawl_abort_on_fetch_failure_witness :
    (∃ m, http_get (fun _ => .exc "ConnectionError") 3 = .error m) ∧
    crawlGo demoFetch "20250101" [] [demoOneDayUrl2] =
      .error "ConnectionError: retries exhausted" :=
  ⟨crawl_abort_on_fetch_failure.1 (fun _ => .exc "ConnectionError") 3 (fun _ => ⟨_, rfl⟩),
   crawl_abort_on_fetch_failure.2 demoFetch "20250101" [] demoOneDayUrl2 [] _
     (by decide) (by decide) (by decide) rfl⟩

end Autorace

